import Mathlib

/-!
Verification development for the context-overflow recovery core of
open-webui-shepherd: error classification, token accounting, two-pass
eviction planning, bounded retry orchestration, and the eviction ledger,
together with two frontend display functions (ProfileImage source
selection and TokenCounter usage computation).

The Python backend files named by the documentation
(backend/open_webui/utils/context.py, routers/openai.py, models/chats.py)
are not part of the shipped sources; the corresponding definitions below
are modelled from the specification and from
backend/open_webui/utils/context.md.  The Svelte components
ProfileImage.svelte and TokenCounter.svelte are present and are embedded
directly.
-/

/-- Message role, as in the spec's data model (section 3). -/
inductive Role where
  | system
  | user
  | assistant
  | tool
deriving DecidableEq, Repr

/-- Modelled from the spec: one message of the conversation view handed to the
Eviction Planner.  It carries a unique identifier, a role, whether it is an
assistant message with a pending tool call (a non-final assistant message),
and the integer token weight already assigned by the Token Accountant. -/
structure Msg where
  id : Nat
  role : Role
  pendingToolCall : Bool
  weight : Nat
deriving DecidableEq, Repr

/-- Modelled from the spec: the continuation of a turn after its opening user
message — all following assistant/tool messages up to and including the next
assistant message that carries no pending tool call (a final assistant
message), or up to the end of the sequence.  Returns the turn segment and
the remaining messages. -/
def takeTurnRest : List Msg → List Msg × List Msg
  | [] => ([], [])
  | m :: rest =>
    match m.role with
    | Role.assistant =>
      if m.pendingToolCall then
        ((m :: (takeTurnRest rest).1), (takeTurnRest rest).2)
      else ([m], rest)
    | Role.tool => ((m :: (takeTurnRest rest).1), (takeTurnRest rest).2)
    | _ => ([], m :: rest)

/-- Modelled from the spec: turn derivation, fuelled by the length of the
list so that every recursion is structural.  A turn is a maximal run starting
at a user message and extending through following assistant/tool messages up
to and including the next final assistant message or the end of the
sequence.  Messages that start no turn (the system message, stray non-user
messages between turns) belong to no turn. -/
def turnsF : Nat → List Msg → List (List Msg)
  | _, [] => []
  | 0, _ :: _ => []
  | fuel + 1, m :: rest =>
    if m.role = Role.user then
      (m :: (takeTurnRest rest).1) :: turnsF fuel (takeTurnRest rest).2
    else
      turnsF fuel rest

/-- Modelled from the spec: the turns of a conversation view. -/
def turns (l : List Msg) : List (List Msg) := turnsF l.length l

/-- Modelled from the spec: the last (current, live) user message of the
conversation view — the one under response. -/
def lastUser (view : List Msg) : Option Msg :=
  view.reverse.find? (fun m => decide (m.role = Role.user))

/-- Modelled from the spec: the most recent assistant message of the
conversation view, which anchors context for pending tool results. -/
def lastAssistant (view : List Msg) : Option Msg :=
  view.reverse.find? (fun m => decide (m.role = Role.assistant))

/-- Modelled from the spec: whether a message is protected from eviction.
Protected are the system message (index 0), the current user message under
response, and the most recent assistant message. -/
def isProtectedB (view : List Msg) (m : Msg) : Bool :=
  (match view.head? with
   | some h => decide (h.role = Role.system ∧ m = h)
   | none => false)
  || (match lastUser view with
      | some u => decide (m = u)
      | none => false)
  || (match lastAssistant view with
      | some a => decide (m = a)
      | none => false)

/-- Total token weight of a list of messages. -/
def sumW (l : List Msg) : Nat := (l.map Msg.weight).sum

/-- Total token weight of a list of eviction units (turns or mini-turns). -/
def sumWT (ts : List (List Msg)) : Nat := (ts.map sumW).sum

/-- Modelled from the spec: the accumulation loop shared by both passes.
Units are scanned in chronological order; a unit containing a protected
message is skipped; otherwise the whole unit is evicted and its weight is
subtracted from the outstanding shortfall; the loop stops as soon as the
shortfall is met. -/
def evictLoop (prot : Msg → Bool) : List (List Msg) → Nat → List (List Msg)
  | [], _ => []
  | t :: rest, needed =>
    if needed = 0 then []
    else if t.any prot then evictLoop prot rest needed
    else t :: evictLoop prot rest (needed - sumW t)

/-- Modelled from the spec: Pass 1 (Big-Turns) — evict whole eligible turns,
oldest first, until the shortfall is met or eligible turns are exhausted. -/
def pass1Turns (view : List Msg) (needed : Nat) : List (List Msg) :=
  evictLoop (isProtectedB view) (turns view) needed

/-- Modelled from the spec: the continuation of a mini-turn group — the tool
messages following an assistant tool-call message. -/
def takeTools : List Msg → List Msg × List Msg
  | [] => ([], [])
  | m :: rest =>
    if m.role = Role.tool then
      ((m :: (takeTools rest).1), (takeTools rest).2)
    else ([], m :: rest)

/-- Modelled from the spec: grouping of the current turn's trailing messages
into mini-turns, each an assistant tool-call message together with its
following tool results.  Fuelled by list length for structural recursion. -/
def miniGroupsF : Nat → List Msg → List (List Msg)
  | _, [] => []
  | 0, _ :: _ => []
  | fuel + 1, m :: rest =>
    if m.role = Role.assistant then
      (m :: (takeTools rest).1) :: miniGroupsF fuel (takeTools rest).2
    else
      miniGroupsF fuel rest

/-- Modelled from the spec: mini-turn groups of a message run. -/
def miniGroups (l : List Msg) : List (List Msg) := miniGroupsF l.length l

/-- Modelled from the spec: the messages of the current, still-open turn (the
one containing the live user message) that follow the live user message. -/
def currentTurnTail (view : List Msg) : List Msg :=
  match (turns view).getLast? with
  | some t => t.tail
  | none => []

/-- Modelled from the spec: Pass 2 (Mini-Turns) — within the current turn,
evict the oldest intermediate assistant(tool_call)+tool groups first, keeping
the single most recent assistant message (the last group). -/
def pass2Groups (view : List Msg) (rem : Nat) : List (List Msg) :=
  evictLoop (fun _ => false) ((miniGroups (currentTurnTail view)).dropLast) rem

/-- Modelled from the spec: the Eviction Planner.  Given the weighted,
ordered conversation view and a shortfall, it returns the eviction set when
the two passes free at least the shortfall, and reports exhaustion (none)
when after both passes the freed total is still short. -/
def plan (view : List Msg) (needed : Nat) : Option (List Msg) :=
  let ev1 := pass1Turns view needed
  let freed1 := sumWT ev1
  if needed ≤ freed1 then some ev1.flatten
  else
    let rem := needed - freed1
    let ev2 := pass2Groups view rem
    if rem ≤ sumWT ev2 then some (ev1.flatten ++ ev2.flatten)
    else none

example : turns [⟨0, Role.system, false, 0⟩, ⟨1, Role.user, false, 0⟩] =
    [[⟨1, Role.user, false, 0⟩]] := by decide

example :
    plan [⟨0, Role.system, false, 0⟩, ⟨1, Role.user, false, 5⟩,
      ⟨2, Role.assistant, false, 5⟩, ⟨3, Role.user, false, 0⟩,
      ⟨4, Role.assistant, true, 2⟩, ⟨5, Role.tool, false, 0⟩,
      ⟨6, Role.assistant, true, 3⟩, ⟨7, Role.tool, false, 0⟩] 8 =
    some [⟨1, Role.user, false, 5⟩, ⟨2, Role.assistant, false, 5⟩] := by decide

example : plan [⟨0, Role.system, false, 0⟩, ⟨1, Role.user, false, 5⟩] 3 = none := by
  decide

/-- Classification of a backend failure, as produced by the Error
Classifier. -/
inductive Classification where
  | NotOverflow
  | Overflow (needed limit : Nat)
deriving DecidableEq, Repr

/-- Modelled from the spec: match a literal character sequence at the head of
the input, returning the rest on success. -/
def dropLit : List Char → List Char → Option (List Char)
  | [], cs => some cs
  | _ :: _, [] => none
  | p :: ps, c :: cs => if p = c then dropLit ps cs else none

/-- Modelled from the spec: accumulate further decimal digits. -/
def digitsAux (acc : Nat) : List Char → Nat × List Char
  | [] => (acc, [])
  | c :: rest =>
    if c.isDigit then digitsAux (acc * 10 + (c.toNat - 48)) rest
    else (acc, c :: rest)

/-- Modelled from the spec: parse a decimal number (one or more digits) at
the head of the input. -/
def parseNat? : List Char → Option (Nat × List Char)
  | [] => none
  | c :: rest =>
    if c.isDigit then some (digitsAux (c.toNat - 48) rest) else none

/-- Modelled from the spec: try a matcher at every position of the body,
left to right, returning the first success. -/
def findFirst (p : List Char → Option α) : List Char → Option α
  | [] => none
  | c :: rest =>
    match p (c :: rest) with
    | some r => some r
    | none => findFirst p rest

/-- Modelled from the spec: skip space characters. -/
def skipSpaces : List Char → List Char
  | ' ' :: rest => skipSpaces rest
  | cs => cs

/-- Modelled from the spec: the Shepherd-style matcher at one position —
the text would need N tokens but limit is M tokens yields Overflow N M. -/
def shepherdAt (cs : List Char) : Option (Nat × Nat) := do
  let cs ← dropLit "would need ".toList cs
  let (n, cs) ← parseNat? cs
  let cs ← dropLit " tokens but limit is ".toList cs
  let (m, cs) ← parseNat? cs
  let _ ← dropLit " tokens".toList cs
  pure (n, m)

/-- Modelled from the spec: the OpenAI-style matcher at one position —
maximum context length is M tokens. However, your messages resulted in N
tokens yields Overflow N M. -/
def openaiAt (cs : List Char) : Option (Nat × Nat) := do
  let cs ← dropLit "maximum context length is ".toList cs
  let (m, cs) ← parseNat? cs
  let cs ← dropLit " tokens. However, your messages resulted in ".toList cs
  let (n, cs) ← parseNat? cs
  let _ ← dropLit " tokens".toList cs
  pure (n, m)

/-- Modelled from the spec: the tail of the vLLM-style matcher — your
request has N input tokens, searched anywhere after the head. -/
def vllmTailAt (cs : List Char) : Option Nat := do
  let cs ← dropLit "your request has ".toList cs
  let (n, cs) ← parseNat? cs
  let _ ← dropLit " input tokens".toList cs
  pure n

/-- Modelled from the spec: the vLLM-style matcher at one position —
maximum context length is M followed (after an arbitrary gap) by your
request has N input tokens yields Overflow N M. -/
def vllmAt (cs : List Char) : Option (Nat × Nat) := do
  let cs ← dropLit "maximum context length is ".toList cs
  let (m, cs) ← parseNat? cs
  match findFirst vllmTailAt cs with
  | some n => some (n, m)
  | none => none

/-- Modelled from the spec: read a quoted JSON numeric field — the field
name in double quotes, a colon, optional spaces, then a number. -/
def jsonFieldAt (name : List Char) (cs : List Char) : Option Nat := do
  let cs ← dropLit name cs
  let cs := skipSpaces cs
  let cs ← dropLit ":".toList cs
  let cs := skipSpaces cs
  let (n, _) ← parseNat? cs
  pure n

/-- Modelled from the spec: the llama.cpp-server-style matcher — a
structured body carrying numeric fields n_prompt_tokens and n_ctx yields
Overflow n_prompt_tokens n_ctx. -/
def llamaMatch (cs : List Char) : Option (Nat × Nat) :=
  match findFirst (jsonFieldAt "\"n_prompt_tokens\"".toList) cs,
        findFirst (jsonFieldAt "\"n_ctx\"".toList) cs with
  | some n, some m => some (n, m)
  | _, _ => none

/-- Modelled from the spec: the Error Classifier.  Only HTTP 400-class
responses are examined; the ordered matcher list (Shepherd, OpenAI, vLLM,
llama.cpp) is applied to the body, stopping at the first match; if no
matcher fires the failure is NotOverflow. -/
def classify (status : Nat) (body : String) : Classification :=
  if 400 ≤ status ∧ status < 500 then
    let cs := body.toList
    match findFirst shepherdAt cs with
    | some (n, m) => Classification.Overflow n m
    | none =>
      match findFirst openaiAt cs with
      | some (n, m) => Classification.Overflow n m
      | none =>
        match findFirst vllmAt cs with
        | some (n, m) => Classification.Overflow n m
        | none =>
          match llamaMatch cs with
          | some (n, m) => Classification.Overflow n m
          | none => Classification.NotOverflow
  else Classification.NotOverflow

example :
    classify 400 "would need 9000 tokens but limit is 8000 tokens" =
      Classification.Overflow 9000 8000 := by decide

example : classify 500 "would need 9000 tokens but limit is 8000 tokens" =
    Classification.NotOverflow := by decide

example : classify 400 "This model's maximum context length is 8192 tokens. However, your messages resulted in 9100 tokens" =
    Classification.Overflow 9100 8192 := by decide

example : classify 400 "bad request" = Classification.NotOverflow := by decide

/-- Modelled from the spec: the message shape consumed by the Token
Accountant — a role and, on assistant messages that completed a backend
call, a usage record. -/
structure Usage where
  prompt_tokens : Nat
  completion_tokens : Nat
deriving DecidableEq, Repr

/-- Modelled from the spec: a message as seen by the Token Accountant. -/
structure AMsg where
  role : Role
  usage : Option Usage
deriving DecidableEq, Repr

/-- Modelled from the spec: the usage record of the next assistant message
in the list, if that assistant carries one (an assistant without usage data
makes the dependent weights zero). -/
def nextAssistantUsage : List AMsg → Option Usage
  | [] => none
  | m :: rest =>
    if m.role = Role.assistant then m.usage else nextAssistantUsage rest

/-- Modelled from the spec: the Token Accountant's walk.  The state prev is
the cumulative prompt_tokens + completion_tokens of the nearest preceding
assistant message with usage data (zero if none).  An assistant message
weighs its completion_tokens; a user message weighs the next assistant's
prompt_tokens minus prev; tool and system messages carry no independent
weight. -/
def weightsFrom (prev : Nat) : List AMsg → List Nat
  | [] => []
  | m :: rest =>
    match m.role, m.usage with
    | Role.assistant, some u =>
      u.completion_tokens :: weightsFrom (u.prompt_tokens + u.completion_tokens) rest
    | Role.assistant, none => 0 :: weightsFrom prev rest
    | Role.user, _ =>
      (match nextAssistantUsage rest with
       | some u => u.prompt_tokens - prev
       | none => 0) :: weightsFrom prev rest
    | _, _ => 0 :: weightsFrom prev rest

/-- Modelled from the spec: token weights of a conversation view. -/
def tokenWeights (msgs : List AMsg) : List Nat := weightsFrom 0 msgs

example :
    tokenWeights [⟨Role.user, none⟩, ⟨Role.assistant, some ⟨1000, 200⟩⟩,
      ⟨Role.user, none⟩, ⟨Role.assistant, some ⟨1400, 300⟩⟩] =
    [1000, 200, 200, 300] := by decide

/-- Modelled from the spec: the result of one backend send attempt — a
successful response, or a failure carrying the raw HTTP status and body
needed by the Error Classifier. -/
inductive SendResult where
  | ok (response : String)
  | err (status : Nat) (body : String)

/-- Modelled from the spec: the typed result the Retry Orchestrator returns
to its caller.  passThrough propagates a non-overflow failure unchanged;
plannerExhausted and retryCeilingReached are the two terminal overflow
outcomes. -/
inductive AttemptOutcome where
  | success (response : String) (evictedIds : List Nat)
  | passThrough (status : Nat) (body : String)
  | plannerExhausted
  | retryCeilingReached
deriving DecidableEq, Repr

/-- Modelled from the spec: the Retry Orchestrator's loop, fuelled by the
remaining attempt budget.  Each iteration sends the current view; on
success it returns with all identifiers evicted across attempts; a failure
is classified; NotOverflow is propagated unchanged; on Overflow the planner
runs — exhaustion is terminal, otherwise the payload is rebuilt without the
evicted messages and the loop retries.  The second component counts the
send attempts performed. -/
def attemptLoop (sendFn : List Msg → SendResult) :
    Nat → List Msg → List Nat → AttemptOutcome × Nat
  | 0, _, _ => (AttemptOutcome.retryCeilingReached, 0)
  | fuel + 1, view, acc =>
    match sendFn view with
    | SendResult.ok r => (AttemptOutcome.success r acc, 1)
    | SendResult.err st bd =>
      match classify st bd with
      | Classification.NotOverflow => (AttemptOutcome.passThrough st bd, 1)
      | Classification.Overflow needed _ =>
        match plan view needed with
        | none => (AttemptOutcome.plannerExhausted, 1)
        | some evs =>
          let view2 := view.filter (fun m => decide (m ∉ evs))
          let res := attemptLoop sendFn fuel view2 (acc ++ evs.map Msg.id)
          (res.1, res.2 + 1)

/-- Modelled from the spec: recognized configuration MAX_CONTEXT_RETRIES,
an integer at least 1, default 3, bounding total attempts. -/
def MAX_CONTEXT_RETRIES : Nat := 3

/-- Modelled from the spec: the single entry point attemptWithRecovery —
runs the retry loop with the given attempt ceiling, starting from an empty
evicted-identifier accumulator.  Also returns the number of send attempts
performed. -/
def attemptWithRecovery (maxRetries : Nat) (sendFn : List Msg → SendResult)
    (view : List Msg) : AttemptOutcome × Nat :=
  attemptLoop sendFn maxRetries view []

/-- Modelled from the spec: the Eviction Ledger's durable state — for each
conversation identifier and message identifier, whether the message is
marked evicted. -/
def Ledger : Type := String → String → Bool

/-- Prefix test over the character lists of two strings, as JavaScript's
startsWith. -/
def jsStartsWithL : List Char → List Char → Bool
  | [], _ => true
  | _ :: _, [] => false
  | p :: ps, c :: cs => decide (p = c) && jsStartsWithL ps cs

/-- Prefix test on strings: jsStartsWith s p is true when p is an initial
segment of s. -/
def jsStartsWith (s p : String) : Bool := jsStartsWithL p.data s.data

/-- Modelled from the spec: temporary (ephemeral, non-durable) conversations
are identified by a chat id with the conventional local: head segment. -/
def isTemporaryChat (chatId : String) : Bool := jsStartsWith chatId "local:"

/-- Modelled from the spec: markEvicted — idempotent, additive-only; marks
each identifier's evicted flag true in durable storage for that
conversation; a no-op for temporary conversations. -/
def markEvicted (l : Ledger) (chatId : String) (ids : List String) : Ledger :=
  if isTemporaryChat chatId then l
  else fun c m => if c = chatId ∧ m ∈ ids then true else l c m

/-- Embedded from ProfileImage.svelte: the img src expression.  The two base
URLs come from the constants module; customLogo reflects
config.custom_logo. -/
def profileImageSrc (baseUrl apiBaseUrl : String) (customLogo : Bool)
    (src : String) : String :=
  let defaultLogo :=
    if customLogo then apiBaseUrl ++ "/configs/branding/logo"
    else baseUrl ++ "/static/favicon.png"
  let isDefaultLogo := src = "" ∨ src = baseUrl ++ "/static/favicon.png"
  if isDefaultLogo then defaultLogo
  else if jsStartsWith src baseUrl = true
      ∨ jsStartsWith src apiBaseUrl = true
      ∨ jsStartsWith src "https://www.gravatar.com/avatar/" = true
      ∨ jsStartsWith src "data:" = true
      ∨ jsStartsWith src "/" = true then src
  else baseUrl ++ "/user.png"

example :
    profileImageSrc "http://localhost:8080" "http://localhost:8080/api/v1"
      false "https://evil.example.com/x.png" =
    "http://localhost:8080/user.png" := by decide

example :
    profileImageSrc "http://localhost:8080" "http://localhost:8080/api/v1"
      false "data:image/png;base64,AAAA" = "data:image/png;base64,AAAA" := by
  decide

/-- Embedded from TokenCounter.svelte: a usage record as carried on a
message; either field may be absent. -/
structure JUsage where
  prompt_tokens : Option Nat
  completion_tokens : Option Nat
deriving DecidableEq, Repr

/-- Embedded from TokenCounter.svelte: a message of the active message
list, with its role string and optional usage record. -/
structure JMsg where
  role : String
  usage : Option JUsage
deriving DecidableEq, Repr

/-- Embedded from TokenCounter.svelte: the history object — a current
message id and the message dictionary, either of which may be absent. -/
structure Hist where
  currentId : Option String
  messages : Option (List (String × JMsg))
deriving DecidableEq, Repr

/-- JavaScript truthiness of the optional currentId string: absent or empty
is falsy. -/
def truthyId : Option String → Bool
  | none => false
  | some s => decide (s ≠ "")

/-- Embedded from TokenCounter.svelte: the backwards scan of
calculateUsedTokens — the loop from the end of the message list looking for
an assistant message with a usage record. -/
def scanBack : List JMsg → Option JUsage
  | [] => none
  | m :: rest =>
    match scanBack rest with
    | some u => some u
    | none => if m.role = "assistant" then m.usage else none

/-- Embedded from TokenCounter.svelte: calculateUsedTokens.  The creation of
the active message list (createMessagesList, defined outside this
repository's shipped sources) is passed in as mkList. -/
def calculateUsedTokens (mkList : Hist → List JMsg) (h : Hist) : Nat :=
  if truthyId h.currentId = false ∨ h.messages = none then 0
  else
    match scanBack (mkList h) with
    | some u => u.prompt_tokens.getD 0 + u.completion_tokens.getD 0
    | none => 0

/-- Statement of the spec's reading of calculateUsedTokens: the prompt plus
completion tokens of the last assistant message of the list that carries a
usage record, each missing field treated as zero, and zero when there is no
such message. -/
def lastAssistantUsageTokens (l : List JMsg) : Nat :=
  match l.reverse.find? (fun m => decide (m.role = "assistant") && m.usage.isSome) with
  | some m =>
    match m.usage with
    | some u => u.prompt_tokens.getD 0 + u.completion_tokens.getD 0
    | none => 0
  | none => 0

theorem sumW_append (a b : List Msg) : sumW (a ++ b) = sumW a + sumW b := by
  simp [sumW]

theorem sumW_flatten (ts : List (List Msg)) : sumW ts.flatten = sumWT ts := by
  induction ts with
  | nil => rfl
  | cons t rest ih => simp [List.flatten_cons, sumW_append, ih, sumWT]

theorem evictLoop_mem (prot : Msg → Bool) (ts : List (List Msg)) (n : Nat)
    (t : List Msg) (h : t ∈ evictLoop prot ts n) :
    t ∈ ts ∧ t.any prot = false := by
  induction ts generalizing n with
  | nil => simp [evictLoop] at h
  | cons t' rest ih =>
    simp only [evictLoop] at h
    split at h
    · simp at h
    · split at h
      · obtain ⟨h1, h2⟩ := ih _ h
        exact ⟨List.mem_cons_of_mem _ h1, h2⟩
      · rcases List.mem_cons.mp h with rfl | hm
        · rename_i hnp
          exact ⟨List.mem_cons_self _ _, by simpa using hnp⟩
        · obtain ⟨h1, h2⟩ := ih _ hm
          exact ⟨List.mem_cons_of_mem _ h1, h2⟩

theorem takeTurnRest_split (l : List Msg) :
    (takeTurnRest l).1 ++ (takeTurnRest l).2 = l := by
  induction l with
  | nil => rfl
  | cons m rest ih =>
    simp only [takeTurnRest]
    cases hm : m.role <;> simp
    case assistant =>
      cases hpc : m.pendingToolCall <;> simp [ih]
    case tool => simp [ih]

theorem takeTurnRest_roles (l : List Msg) (m : Msg)
    (h : m ∈ (takeTurnRest l).1) :
    m.role = Role.assistant ∨ m.role = Role.tool := by
  induction l with
  | nil => simp [takeTurnRest] at h
  | cons x rest ih =>
    simp only [takeTurnRest] at h
    cases hx : x.role <;> simp [hx] at h
    case assistant =>
      cases hpc : x.pendingToolCall <;> simp [hpc] at h
      · subst h; left; exact hx
      · rcases h with rfl | h
        · left; exact hx
        · exact ih h
    case tool =>
      rcases h with rfl | h
      · right; exact hx
      · exact ih h

theorem turnsF_flatten_sublist (fuel : Nat) :
    ∀ l : List Msg, (turnsF fuel l).flatten.Sublist l := by
  induction fuel with
  | zero => intro l; cases l <;> simp [turnsF]
  | succ n ih =>
    intro l
    cases l with
    | nil => simp [turnsF]
    | cons m rest =>
      simp only [turnsF]
      by_cases hm : m.role = Role.user
      · rw [if_pos hm]
        simp only [List.flatten_cons, List.cons_append]
        have h3 := List.Sublist.append_left (ih (takeTurnRest rest).2)
          (takeTurnRest rest).1
        rw [takeTurnRest_split] at h3
        exact List.Sublist.cons₂ m h3
      · rw [if_neg hm]
        exact (ih rest).trans (List.sublist_cons_self m rest)

theorem mem_turnsF_structure (fuel : Nat) :
    ∀ (l : List Msg) (t : List Msg), t ∈ turnsF fuel l →
      ∃ u r, t = u :: (takeTurnRest r).1 ∧ u.role = Role.user := by
  induction fuel with
  | zero => intro l t h; cases l <;> simp [turnsF] at h
  | succ n ih =>
    intro l t h
    cases l with
    | nil => simp [turnsF] at h
    | cons m rest =>
      simp only [turnsF] at h
      by_cases hm : m.role = Role.user
      · rw [if_pos hm] at h
        rcases List.mem_cons.mp h with rfl | h2
        · exact ⟨m, rest, rfl, hm⟩
        · exact ih _ _ h2
      · rw [if_neg hm] at h
        exact ih _ _ h

theorem currentTurnTail_roles (view : List Msg) (m : Msg)
    (h : m ∈ currentTurnTail view) :
    m.role = Role.assistant ∨ m.role = Role.tool := by
  unfold currentTurnTail at h
  cases hl : (turns view).getLast? with
  | none => rw [hl] at h; simp at h
  | some t =>
    rw [hl] at h
    have ht : t ∈ turns view := List.mem_of_mem_getLast? hl
    obtain ⟨u, r, rfl, hu⟩ := mem_turnsF_structure _ _ _ ht
    exact takeTurnRest_roles r m (by simpa using h)

theorem takeTools_split (l : List Msg) :
    (takeTools l).1 ++ (takeTools l).2 = l := by
  induction l with
  | nil => rfl
  | cons m rest ih =>
    simp only [takeTools]
    by_cases hm : m.role = Role.tool
    · rw [if_pos hm]; simp [ih]
    · rw [if_neg hm]; rfl

theorem miniGroupsF_flatten_sublist (fuel : Nat) :
    ∀ l : List Msg, (miniGroupsF fuel l).flatten.Sublist l := by
  induction fuel with
  | zero => intro l; cases l <;> simp [miniGroupsF]
  | succ n ih =>
    intro l
    cases l with
    | nil => simp [miniGroupsF]
    | cons m rest =>
      simp only [miniGroupsF]
      by_cases hm : m.role = Role.assistant
      · rw [if_pos hm]
        simp only [List.flatten_cons, List.cons_append]
        have h3 := List.Sublist.append_left (ih (takeTools rest).2)
          (takeTools rest).1
        rw [takeTools_split] at h3
        exact List.Sublist.cons₂ m h3
      · rw [if_neg hm]
        exact (ih rest).trans (List.sublist_cons_self m rest)

theorem pass2_mem_tail (view : List Msg) (rem : Nat) (m : Msg)
    (h : m ∈ (pass2Groups view rem).flatten) :
    m ∈ currentTurnTail view := by
  rw [List.mem_flatten] at h
  obtain ⟨g, hg, hm⟩ := h
  have hg2 : g ∈ (miniGroups (currentTurnTail view)).dropLast :=
    (evictLoop_mem _ _ _ _ hg).1
  have hg3 : g ∈ miniGroups (currentTurnTail view) :=
    (List.dropLast_sublist _).subset hg2
  have hmem : m ∈ (miniGroups (currentTurnTail view)).flatten :=
    List.mem_flatten.mpr ⟨g, hg3, hm⟩
  exact (miniGroupsF_flatten_sublist _ _).subset hmem

theorem lastUser_role (view : List Msg) (u : Msg) (h : lastUser view = some u) :
    u.role = Role.user := by
  have := List.find?_some h
  simpa using this

theorem pass1_not_protected (view : List Msg) (needed : Nat) (m : Msg)
    (h : m ∈ (pass1Turns view needed).flatten) :
    isProtectedB view m = false := by
  rw [List.mem_flatten] at h
  obtain ⟨t, ht, hm⟩ := h
  have h2 := (evictLoop_mem _ _ _ _ ht).2
  exact Bool.eq_false_iff.mpr (List.any_eq_false.mp h2 m hm)

theorem head_system_protected (view : List Msg) (s : Msg)
    (hh : view.head? = some s) (hr : s.role = Role.system) :
    isProtectedB view s = true := by
  unfold isProtectedB
  rw [hh]
  simp [hr]

theorem lastUser_protected (view : List Msg) (u : Msg)
    (h : lastUser view = some u) : isProtectedB view u = true := by
  unfold isProtectedB
  rw [h]
  simp

/-- Sample conversation view for concrete witnesses: a system message, one
completed turn (user 1, assistant 2), and the current open turn (user 3
with two pending tool-call exchanges). -/
def sampleView : List Msg :=
  [⟨0, Role.system, false, 0⟩, ⟨1, Role.user, false, 5⟩,
   ⟨2, Role.assistant, false, 5⟩, ⟨3, Role.user, false, 0⟩,
   ⟨4, Role.assistant, true, 2⟩, ⟨5, Role.tool, false, 0⟩,
   ⟨6, Role.assistant, true, 3⟩, ⟨7, Role.tool, false, 0⟩]

/-- The eviction set the planner produces on sampleView with shortfall 8. -/
def sampleEvicted : List Msg :=
  [⟨1, Role.user, false, 5⟩, ⟨2, Role.assistant, false, 5⟩]

/-- C1: for every conversation view and every shortfall needed_tokens for
which the Eviction Planner returns an eviction set (rather than reporting
exhaustion), the sum of the token weights of the messages in that eviction
set is at least needed_tokens. -/
theorem plan_frees_enough (view : List Msg) (needed : Nat) (evs : List Msg)
    (h : plan view needed = some evs) : needed ≤ sumW evs := by
  simp only [plan] at h
  split at h
  · rename_i h1
    rw [Option.some.injEq] at h
    subst h
    rw [sumW_flatten]
    exact h1
  · split at h
    · rename_i h1 h2
      rw [Option.some.injEq] at h
      subst h
      rw [sumW_append, sumW_flatten, sumW_flatten]
      omega
    · exact absurd h (by simp)

/-- Witness for plan_frees_enough at the concrete sample view. -/
theorem plan_frees_enough_witness :
    plan sampleView 8 = some sampleEvicted ∧ 8 ≤ sumW sampleEvicted :=
  ⟨by decide, plan_frees_enough sampleView 8 sampleEvicted (by decide)⟩

/-- C2: for every input conversation view and every shortfall, the eviction
set produced by the Eviction Planner never contains the system message
(index 0) and never contains the current user message under response. -/
theorem plan_never_evicts_protected (view : List Msg) (needed : Nat)
    (evs : List Msg) (h : plan view needed = some evs) :
    (∀ s, view.head? = some s → s.role = Role.system → s ∉ evs) ∧
      ∀ u, lastUser view = some u → u ∉ evs := by
  have hmem : ∀ m ∈ evs, m ∈ (pass1Turns view needed).flatten ∨
      ∃ rem, m ∈ (pass2Groups view rem).flatten := by
    simp only [plan] at h
    split at h
    · rw [Option.some.injEq] at h
      subst h
      intro m hm
      exact Or.inl hm
    · split at h
      · rw [Option.some.injEq] at h
        subst h
        intro m hm
        rcases List.mem_append.mp hm with hm | hm
        · exact Or.inl hm
        · exact Or.inr ⟨_, hm⟩
      · exact absurd h (by simp)
  constructor
  · intro s hh hr hs
    rcases hmem s hs with h1 | ⟨rem, h2⟩
    · have hf := pass1_not_protected view needed s h1
      rw [head_system_protected view s hh hr] at hf
      simp at hf
    · rcases currentTurnTail_roles view s (pass2_mem_tail view rem s h2) with h3 | h3 <;>
        rw [hr] at h3 <;> simp at h3
  · intro u hu hmem2
    rcases hmem u hmem2 with h1 | ⟨rem, h2⟩
    · have hf := pass1_not_protected view needed u h1
      rw [lastUser_protected view u hu] at hf
      simp at hf
    · have hr := lastUser_role view u hu
      rcases currentTurnTail_roles view u (pass2_mem_tail view rem u h2) with h3 | h3 <;>
        rw [hr] at h3 <;> simp at h3

/-- Witness for plan_never_evicts_protected at the concrete sample view:
neither the system message nor the current user message is evicted. -/
theorem plan_never_evicts_protected_witness :
    plan sampleView 8 = some sampleEvicted ∧
      Msg.mk 0 Role.system false 0 ∉ sampleEvicted ∧
      Msg.mk 3 Role.user false 0 ∉ sampleEvicted :=
  ⟨by decide,
   (plan_never_evicts_protected sampleView 8 sampleEvicted (by decide)).1
     (Msg.mk 0 Role.system false 0) (by decide) (by decide),
   (plan_never_evicts_protected sampleView 8 sampleEvicted (by decide)).2
     (Msg.mk 3 Role.user false 0) (by decide)⟩

/-- C4: Pass 1 of the Eviction Planner evicts only whole turns — for every
turn of the view, either every message of the turn is in Pass 1's eviction
set or none of its messages is.  The view is assumed duplicate-free, as the
data model gives every message a unique identifier. -/
theorem pass1_evicts_whole_turns (view : List Msg) (needed : Nat)
    (hnd : view.Nodup) :
    ∀ t ∈ turns view,
      (∀ m ∈ t, m ∈ (pass1Turns view needed).flatten) ∨
        ∀ m ∈ t, m ∉ (pass1Turns view needed).flatten := by
  intro t ht
  by_cases hsel : t ∈ pass1Turns view needed
  · exact Or.inl fun m hm => List.mem_flatten.mpr ⟨t, hsel, hm⟩
  · refine Or.inr fun m hm hmem => ?_
    rw [List.mem_flatten] at hmem
    obtain ⟨t', ht', hm'⟩ := hmem
    have ht'2 : t' ∈ turns view := (evictLoop_mem _ _ _ _ ht').1
    have hne : t' ≠ t := fun he => hsel (he ▸ ht')
    have hnj : (turns view).flatten.Nodup :=
      (turnsF_flatten_sublist view.length view).nodup hnd
    have hpd : List.Pairwise List.Disjoint (turns view) :=
      (List.nodup_flatten.mp hnj).2
    have hd : List.Disjoint t' t :=
      hpd.forall (fun a b hab => List.Disjoint.symm hab) ht'2 ht hne
    exact hd hm' hm

/-- Witness for pass1_evicts_whole_turns at the concrete sample view. -/
theorem pass1_evicts_whole_turns_witness :
    sampleView.Nodup ∧
      ∀ t ∈ turns sampleView,
        (∀ m ∈ t, m ∈ (pass1Turns sampleView 8).flatten) ∨
          ∀ m ∈ t, m ∉ (pass1Turns sampleView 8).flatten :=
  ⟨by decide, pass1_evicts_whole_turns sampleView 8 (by decide)⟩

/-- C5: on the sequence user1, assistant1 with usage prompt 1000 and
completion 200, user2, assistant2 with usage prompt 1400 and completion
300, the Token Accountant assigns weights 1000, 200, 200, 300. -/
theorem token_delta_example :
    tokenWeights [⟨Role.user, none⟩, ⟨Role.assistant, some ⟨1000, 200⟩⟩,
      ⟨Role.user, none⟩, ⟨Role.assistant, some ⟨1400, 300⟩⟩] =
    [1000, 200, 200, 300] := by decide

/-- C6: for a 400-class backend failure whose body is the Shepherd-style
text would need 9000 tokens but limit is 8000 tokens, the Error Classifier
returns Overflow with needed 9000 and limit 8000. -/
theorem shepherd_overflow_classified (st : Nat) (h1 : 400 ≤ st)
    (h2 : st < 500) :
    classify st "would need 9000 tokens but limit is 8000 tokens" =
      Classification.Overflow 9000 8000 := by
  unfold classify
  rw [if_pos ⟨h1, h2⟩]
  decide

/-- Witness for shepherd_overflow_classified at status 400. -/
theorem shepherd_overflow_classified_witness :
    (400 ≤ 400 ∧ 400 < 500) ∧
      classify 400 "would need 9000 tokens but limit is 8000 tokens" =
        Classification.Overflow 9000 8000 :=
  ⟨by decide, shepherd_overflow_classified 400 (by decide) (by decide)⟩

/-- Bound on the number of send attempts the retry loop performs: never
more than its fuel. -/
theorem attemptLoop_le (sendFn : List Msg → SendResult) :
    ∀ (fuel : Nat) (view : List Msg) (acc : List Nat),
      (attemptLoop sendFn fuel view acc).2 ≤ fuel := by
  intro fuel
  induction fuel with
  | zero => intro view acc; simp [attemptLoop]
  | succ n ih =>
    intro view acc
    simp only [attemptLoop]
    cases hs : sendFn view with
    | ok r => exact Nat.succ_le_succ (Nat.zero_le n)
    | err st bd =>
      dsimp only
      cases hc : classify st bd with
      | NotOverflow => exact Nat.succ_le_succ (Nat.zero_le n)
      | Overflow needed lim =>
        dsimp only
        cases hp : plan view needed with
        | none => exact Nat.succ_le_succ (Nat.zero_le n)
        | some evs => exact Nat.succ_le_succ (ih _ _)

/-- C3: the Retry Orchestrator performs at most MAX_CONTEXT_RETRIES send
attempts for every input conversation, payload and send-function behaviour,
and always terminates (the loop is a total function); MAX_CONTEXT_RETRIES
is at least 1 with default 3. -/
theorem retry_loop_bounded (maxRetries : Nat)
    (sendFn : List Msg → SendResult) (view : List Msg) :
    (attemptWithRecovery maxRetries sendFn view).2 ≤ maxRetries ∧
      1 ≤ MAX_CONTEXT_RETRIES ∧ MAX_CONTEXT_RETRIES = 3 :=
  ⟨attemptLoop_le sendFn maxRetries view [], by decide, rfl⟩

theorem turns_sys_user (sys usr : Msg) (hs : sys.role = Role.system)
    (hu : usr.role = Role.user) : turns [sys, usr] = [[usr]] := by
  simp [turns, turnsF, takeTurnRest, hs, hu]

theorem plan_sys_user_none (sys usr : Msg) (hs : sys.role = Role.system)
    (hu : usr.role = Role.user) (needed : Nat) (hpos : 0 < needed) :
    plan [sys, usr] needed = none := by
  have hturns := turns_sys_user sys usr hs hu
  have hlu : lastUser [sys, usr] = some usr := by
    simp [lastUser, List.find?, hu]
  have hprot : isProtectedB [sys, usr] usr = true := by
    unfold isProtectedB
    rw [hlu]
    simp
  have hne : ¬needed = 0 := by omega
  have hloop : pass1Turns [sys, usr] needed = [] := by
    unfold pass1Turns
    rw [hturns]
    simp [evictLoop, hne, hprot]
  have hct : currentTurnTail [sys, usr] = [] := by
    unfold currentTurnTail
    rw [hturns]
    rfl
  have hp2 : ∀ rem, pass2Groups [sys, usr] rem = [] := by
    intro rem
    unfold pass2Groups
    rw [hct]
    rfl
  simp only [plan, hloop, hp2]
  simp [sumWT, hne]

/-- C7: for every conversation view consisting of only a system message and
the single live user message, an overflow error with a positive shortfall
makes the planner report exhaustion and the orchestrator return the
terminal PlannerExhausted result after exactly one attempt, with no further
retries. -/
theorem sys_user_overflow_exhausts (sys usr : Msg)
    (hs : sys.role = Role.system) (hu : usr.role = Role.user)
    (k : Nat) (hk : 1 ≤ k) (sendFn : List Msg → SendResult)
    (st : Nat) (bd : String) (needed lim : Nat)
    (hsend : sendFn [sys, usr] = SendResult.err st bd)
    (hcls : classify st bd = Classification.Overflow needed lim)
    (hpos : 0 < needed) :
    attemptWithRecovery k sendFn [sys, usr] =
      (AttemptOutcome.plannerExhausted, 1) := by
  obtain ⟨j, rfl⟩ : ∃ j, k = j + 1 := ⟨k - 1, by omega⟩
  unfold attemptWithRecovery
  simp only [attemptLoop, hsend, hcls,
    plan_sys_user_none sys usr hs hu needed hpos]

/-- Send function used by the concrete witness: always fails with a
Shepherd-style overflow body. -/
def sampleOverflowSend : List Msg → SendResult :=
  fun _ => SendResult.err 400 "would need 9000 tokens but limit is 8000 tokens"

/-- Witness for sys_user_overflow_exhausts on a concrete two-message view
and the Shepherd overflow body. -/
theorem sys_user_overflow_exhausts_witness :
    (1 ≤ 3 ∧ 0 < 9000) ∧
      attemptWithRecovery 3 sampleOverflowSend
        [Msg.mk 0 Role.system false 0, Msg.mk 1 Role.user false 5] =
      (AttemptOutcome.plannerExhausted, 1) :=
  ⟨by decide,
   sys_user_overflow_exhausts (Msg.mk 0 Role.system false 0)
     (Msg.mk 1 Role.user false 5) rfl rfl 3 (by decide) sampleOverflowSend
     400 "would need 9000 tokens but limit is 8000 tokens" 9000 8000 rfl
     (by decide) (by decide)⟩

/-- C8: markEvicted is idempotent — marking the same identifiers twice
yields the same persisted ledger as marking them once — and two markEvicted
calls on the same conversation commute. -/
theorem markEvicted_idempotent_commutative (l : Ledger) (cid : String)
    (ids ids1 ids2 : List String) :
    markEvicted (markEvicted l cid ids) cid ids = markEvicted l cid ids ∧
      markEvicted (markEvicted l cid ids1) cid ids2 =
        markEvicted (markEvicted l cid ids2) cid ids1 := by
  constructor
  · by_cases ht : isTemporaryChat cid = true
    · simp [markEvicted, ht]
    · simp only [markEvicted, ht, if_false, Bool.false_eq_true]
      funext c m
      by_cases hc : c = cid ∧ m ∈ ids <;> simp [hc]
  · by_cases ht : isTemporaryChat cid = true
    · simp [markEvicted, ht]
    · simp only [markEvicted, ht, if_false, Bool.false_eq_true]
      funext c m
      by_cases h1 : c = cid ∧ m ∈ ids1 <;> by_cases h2 : c = cid ∧ m ∈ ids2 <;>
        simp [h1, h2]

/-- C9: for every non-empty src string that is not the default favicon URL
and does not start with the webui base URL, the API base URL, the gravatar
avatar host, a data URI scheme, or a slash, the ProfileImage component
renders the fallback image baseUrl/user.png instead of the supplied src. -/
theorem profileImage_external_fallback (base api src : String)
    (customLogo : Bool) (h1 : src ≠ "")
    (h2 : src ≠ base ++ "/static/favicon.png")
    (h3 : jsStartsWith src base = false)
    (h4 : jsStartsWith src api = false)
    (h5 : jsStartsWith src "https://www.gravatar.com/avatar/" = false)
    (h6 : jsStartsWith src "data:" = false)
    (h7 : jsStartsWith src "/" = false) :
    profileImageSrc base api customLogo src = base ++ "/user.png" := by
  unfold profileImageSrc
  rw [if_neg (by rintro (h | h) <;> [exact h1 h; exact h2 h])]
  rw [if_neg (by rintro (h | h | h | h | h) <;> simp_all)]

/-- Witness for profileImage_external_fallback at a concrete external
URL. -/
theorem profileImage_external_fallback_witness :
    ("https://evil.example.com/x.png" ≠ "" ∧
      jsStartsWith "https://evil.example.com/x.png" "/" = false) ∧
      profileImageSrc "http://localhost:8080" "http://localhost:8080/api/v1"
        false "https://evil.example.com/x.png" =
        "http://localhost:8080/user.png" :=
  ⟨by decide,
   profileImage_external_fallback "http://localhost:8080"
     "http://localhost:8080/api/v1" "https://evil.example.com/x.png" false
     (by decide) (by decide) (by decide) (by decide) (by decide) (by decide)
     (by decide)⟩

theorem scanBack_eq_find (l : List JMsg) :
    scanBack l =
      match l.reverse.find?
          (fun m => decide (m.role = "assistant") && m.usage.isSome) with
      | some m => m.usage
      | none => none := by
  induction l with
  | nil => rfl
  | cons m rest ih =>
    simp only [scanBack, List.reverse_cons, List.find?_append, ih]
    cases hf : rest.reverse.find?
        (fun m => decide (m.role = "assistant") && m.usage.isSome) with
    | some m' =>
      have hp := List.find?_some hf
      have husage : m'.usage.isSome = true := by
        simp at hp
        exact hp.2
      obtain ⟨u, hu⟩ := Option.isSome_iff_exists.mp husage
      simp [Option.or, hu]
    | none =>
      simp only [Option.or]
      by_cases hr : m.role = "assistant"
      · cases hus : m.usage with
        | none => simp [List.find?, hr, hus]
        | some u => simp [List.find?, hr, hus]
      · simp [List.find?, hr]

/-- C10: calculateUsedTokens returns the prompt plus completion tokens of
the last assistant message of the active message list that carries a usage
record, each missing field treated as zero, and returns zero when the
history has no (non-empty) currentId, no message dictionary, or no
assistant message with usage data. -/
theorem calculateUsedTokens_spec (mkList : Hist → List JMsg) (h : Hist) :
    calculateUsedTokens mkList h =
      if truthyId h.currentId = true ∧ h.messages ≠ none then
        lastAssistantUsageTokens (mkList h)
      else 0 := by
  unfold calculateUsedTokens lastAssistantUsageTokens
  by_cases hc : truthyId h.currentId = false ∨ h.messages = none
  · rw [if_pos hc, if_neg (by rcases hc with hc | hc <;> simp [hc])]
  · rw [if_neg hc]
    have hcond : truthyId h.currentId = true ∧ h.messages ≠ none := by
      constructor
      · cases hx : truthyId h.currentId
        · exact absurd (Or.inl hx) hc
        · rfl
      · intro hm
        exact hc (Or.inr hm)
    rw [if_pos hcond]
    rw [scanBack_eq_find]
    cases hf : (mkList h).reverse.find?
        (fun m => decide (m.role = "assistant") && m.usage.isSome) with
    | none => rfl
    | some m' => cases m'.usage <;> rfl
